import Mathlib

/-!
# Formal model of the premier-squares-service core

Shallow embedding of the contest lifecycle manager and single-winner registry
of the service (`src/routes/contests.js`, `src/routes/bagBuilder.js`,
`src/middleware/validation.js`, `src/config/firebase.js`, `src/server.js`).

JavaScript runtime values stored in or passed to the service are modelled by
`JsValue` (JSON-like values plus `undefined` and `Date`); JS numbers are
modelled as rationals (the claims under study never exercise float-specific
behaviour such as NaN payloads or rounding of irrationals).  Effectful
`new Date()` calls are modelled by an explicit clock `ℕ → ℤ` giving the result
of the k-th clock reading (milliseconds since the epoch); `Math.random` draws
are modelled by an explicit list of the drawn indices `j = ⌊random * (i+1)⌋`.
The Firestore collaborator is modelled as an association list from document id
to document fields, in insertion order.
-/

/-- A JavaScript runtime value as stored in / passed through the service:
`undefined`, `null`, booleans, numbers (modelled as `ℚ`), strings, `Date`
objects (epoch milliseconds) and arrays. -/
inductive JsValue where
  | undef : JsValue
  | nullV : JsValue
  | bool (b : Bool) : JsValue
  | num (q : ℚ) : JsValue
  | str (s : String) : JsValue
  | date (ms : ℤ) : JsValue
  | arr (elems : List JsValue) : JsValue

namespace JsValue

mutual

/-- Boolean structural equality on `JsValue` (JS strict equality `===` on the
value shapes the service compares). -/
def beq : JsValue → JsValue → Bool
  | undef, undef => true
  | nullV, nullV => true
  | bool a, bool b => a == b
  | num a, num b => a == b
  | str a, str b => a == b
  | date a, date b => a == b
  | arr a, arr b => beqList a b
  | _, _ => false

/-- Elementwise `beq` on lists of values. -/
def beqList : List JsValue → List JsValue → Bool
  | [], [] => true
  | x :: xs, y :: ys => beq x y && beqList xs ys
  | _, _ => false

end

mutual

theorem beq_iff : ∀ (a b : JsValue), beq a b = true ↔ a = b
  | undef, b => by cases b <;> simp [beq]
  | nullV, b => by cases b <;> simp [beq]
  | bool a, b => by cases b <;> simp [beq]
  | num a, b => by cases b <;> simp [beq]
  | str a, b => by cases b <;> simp [beq]
  | date a, b => by cases b <;> simp [beq]
  | arr a, b => by
      cases b <;> simp [beq]
      exact beqList_iff a _

theorem beqList_iff : ∀ (xs ys : List JsValue), beqList xs ys = true ↔ xs = ys
  | [], ys => by cases ys <;> simp [beqList]
  | x :: xs, ys => by
      cases ys <;> simp [beqList]
      rw [beq_iff x _, beqList_iff xs _]

end

instance : DecidableEq JsValue := fun a b => decidable_of_iff _ (beq_iff a b)

/-- JS truthiness: `undefined`, `null`, `false`, `0` and `''` are falsy;
every other value (including any `Date` or array object) is truthy. -/
def truthy : JsValue → Bool
  | undef => false
  | nullV => false
  | bool b => b
  | num q => q ≠ 0
  | str s => s ≠ ""
  | date _ => true
  | arr _ => true

/-- `typeof v === 'number'`. -/
def isNumber : JsValue → Bool
  | num _ => true
  | _ => false

/-- `typeof v === 'string'`. -/
def isString : JsValue → Bool
  | str _ => true
  | _ => false

/-- `v <= 0` for the values on which the service evaluates it (numbers). -/
def numNonpos : JsValue → Bool
  | num q => q ≤ 0
  | _ => false

/-- Template-literal coercion of a value to text, as used in the service's
interpolated error messages (exact only for the string-valued fields the
service interpolates). -/
def display : JsValue → String
  | undef => "undefined"
  | nullV => "null"
  | bool b => if b then "true" else "false"
  | num q => toString q
  | str s => s
  | date ms => toString ms
  | arr _ => ""

end JsValue

/-! ## String sanitization (`src/middleware/validation.js`, `sanitizeString` /
`sanitizeArray` / `sanitizeInput`) -/

/-- Remove leading and trailing whitespace from a character list, as
`String.prototype.trim` does. -/
def trimChars (cs : List Char) : List Char :=
  ((cs.dropWhile Char.isWhitespace).reverse.dropWhile Char.isWhitespace).reverse

/-- `s.trim()` in JS (modelled on the character list of the string). -/
def jsTrim (s : String) : String :=
  String.mk (trimChars s.data)

/-- `sanitizeString`: `str.trim().replace(/[<>]/g, '')` — trim, then remove
every `<` and `>` character. Non-strings are returned unchanged by the
source; that case is handled at the `JsValue` level below. -/
def sanitizeString (s : String) : String :=
  String.mk ((trimChars s.data).filter (fun c => !(c == '<' || c == '>')))

/-- `sanitizeArray`'s per-item step: `sanitizeString(item)` returns non-string
items unchanged. -/
def sanitizeItem : JsValue → JsValue
  | .str s => .str (sanitizeString s)
  | v => v

/-- `sanitizeArray`: `arr.map(item => sanitizeString(item)).filter(item =>
item !== '')` — sanitize each entry, then drop the entries that became the
empty string. -/
def sanitizeArray (xs : List JsValue) : List JsValue :=
  (xs.map sanitizeItem).filter (fun v => v != JsValue.str "")

/-- `sanitizeInput`: strings are sanitized, arrays go through `sanitizeArray`;
other primitives are returned unchanged.  (For plain objects the source maps
`sanitizeInput` over each field value; the service's request bodies are flat
objects, and this model applies `sanitizeInput` to each body field.) -/
def sanitizeInput : JsValue → JsValue
  | .str s => .str (sanitizeString s)
  | .arr xs => .arr (sanitizeArray xs)
  | v => v

/-! ## Joi validation schemas (`src/middleware/validation.js`) -/

/-- A character allowed by the `eventId` pattern `/^[a-zA-Z0-9_-]+$/`. -/
def eventIdChar (c : Char) : Bool :=
  (decide ('a' ≤ c) && decide (c ≤ 'z')) || (decide ('A' ≤ c) && decide (c ≤ 'Z')) ||
  (decide ('0' ≤ c) && decide (c ≤ '9')) || c == '_' || c == '-'

/-- `eventIdSchema`: required string, 1–100 chars, pattern
`/^[a-zA-Z0-9_-]+$/`. -/
def eventIdValid (s : String) : Bool :=
  1 ≤ s.length && s.length ≤ 100 && s.data.all eventIdChar

/-- `costPerSquareSchema`: required positive number, at most 10000.
(Joi's `.precision(2)` under the default convert option rounds the validated
value to two decimals rather than rejecting; none of the claims depends on
that rounding, so the model keeps the validated number.) -/
def costPerSquareValid (q : ℚ) : Bool :=
  0 < q && q ≤ 10000

/-- `nameSchema`: required string of 1–100 characters. -/
def nameValid (s : String) : Bool :=
  1 ≤ s.length && s.length ≤ 100

/-- An entry of the `names` array accepted by `nameSchema` (non-strings are
rejected by `Joi.string()`). -/
def joiNameOk : JsValue → Bool
  | .str s => nameValid s
  | _ => false

/-- `namesArraySchema`: an array of 1–100 entries, each accepted by
`nameSchema`. -/
def namesArrayValid : JsValue → Bool
  | .arr xs => 1 ≤ xs.length && xs.length ≤ 100 && xs.all joiNameOk
  | _ => false

/-- `contestIdSchema`: required string of 1–200 characters (used by
`validateContestId` on the raw `:id` path parameter, without sanitization). -/
def contestIdValid (id : String) : Bool :=
  1 ≤ id.length && id.length ≤ 200

/-- The `validate(updateContestSchema)` middleware applied to the `names`
field of a `PUT /contests/:id` body: sanitize first, then check
`namesArraySchema`; on success the handler receives the *sanitized* value. -/
def processNamesInput (input : JsValue) : Option JsValue :=
  let sanitized := sanitizeInput input
  if namesArrayValid sanitized then some sanitized else none

/-- The `validate(createContestSchema)` middleware applied to the body of
`POST /contests`: sanitize each field, then check `eventIdSchema` and
`costPerSquareSchema`.  (Numeric input is modelled as number-typed; the
claims do not exercise Joi's string-to-number coercion.) -/
def processCreateBody (eventIdField costField : JsValue) : Option (String × ℚ) :=
  match sanitizeInput eventIdField, sanitizeInput costField with
  | .str s, .num q => if eventIdValid s && costPerSquareValid q then some (s, q) else none
  | _, _ => none

/-! ## Contest documents and the document store (`src/routes/contests.js`,
Firestore collaborator) -/

/-- The fields of a contest document as stored.  Fields a document does not
have are `JsValue.undef` (reading a missing property in JS yields
`undefined`). -/
structure ContestData where
  eventId : JsValue := .undef
  costPerSquare : JsValue := .undef
  names : JsValue := .undef
  status : JsValue := .undef
  createdAt : JsValue := .undef
  updatedAt : JsValue := .undef
deriving DecidableEq

/-- The `contests` collection: document id to document fields, in insertion
order. -/
abbrev ContestStore := List (String × ContestData)

/-- `db.collection('contests').doc(id).get()` — `none` when
`doc.exists` is false. -/
def lookupDoc (store : ContestStore) (id : String) : Option ContestData :=
  (store.find? (fun e => e.1 == id)).map (·.2)

/-- `db.collection('contests').doc(id).update(...)` modelled as replacing the
document with the given id by its updated fields. -/
def updateDoc (store : ContestStore) (id : String) (c : ContestData) : ContestStore :=
  store.map (fun e => if e.1 = id then (id, c) else e)

/-! ## Start-contest validation (`validateStartContest`,
`src/routes/contests.js` lines 197–227) -/

/-- One entry of the `names` array fails the per-entry check
`typeof names[i] !== 'string' || names[i].trim() === ''`. -/
def badNameEntry : JsValue → Bool
  | .str s => jsTrim s == ""
  | _ => true

/-- Index of the first offending `names` entry, if any (the source pushes one
message for the first bad entry and `break`s). -/
def firstBadName : List JsValue → ℕ → Option ℕ
  | [], _ => none
  | v :: rest, i => if badNameEntry v then some i else firstBadName rest (i + 1)

/-- The `names`-clause of `validateStartContest`: reject a missing or
non-array `names` (`!contestData.names || !Array.isArray(contestData.names)`),
then a wrong length, then the first bad entry. -/
def namesStartErrors : JsValue → List String
  | JsValue.arr ns =>
      if ns.length ≠ 100 then
        ["names array must have exactly 100 items (currently has " ++
         toString ns.length ++ ")"]
      else
        match firstBadName ns 0 with
        | some i => ["names[" ++ toString i ++ "] must be a non-empty string"]
        | none => []
  | _ => ["names array is missing"]

/-- `validateStartContest(contestData)`: collect *all* violated start
preconditions into one list, in source order (status, eventId,
costPerSquare, names). -/
def validateStartContest (c : ContestData) : List String :=
  (if c.status = JsValue.str "new" then []
   else ["Contest cannot be started in '" ++ c.status.display ++
         "' state. Only contests in 'new' state can be started."]) ++
  (if c.eventId.truthy then [] else ["eventId is missing"]) ++
  (if !c.costPerSquare.truthy || !c.costPerSquare.isNumber || c.costPerSquare.numNonpos
   then ["costPerSquare is missing or invalid"] else []) ++
  namesStartErrors c.names

/-! ## The Fisher–Yates shuffle (`src/routes/contests.js` lines 413–418)

```js
const shuffledNames = [...contestData.names];
for (let i = shuffledNames.length - 1; i > 0; i--) {
  const j = Math.floor(Math.random() * (i + 1));
  [shuffledNames[i], shuffledNames[j]] = [shuffledNames[j], shuffledNames[i]];
}
```

The random draws `j = ⌊Math.random() * (i+1)⌋` (one per loop iteration, each
in `[0, i]`) are passed in explicitly as a list, first iteration first. -/

/-- Swap the entries at positions `i` and `j` (no-op when either index is out
of bounds, which never happens for the in-range draws the loop produces). -/
def swapEntries {α : Type} (l : List α) (i j : ℕ) : List α :=
  match l[i]?, l[j]? with
  | some x, some y => (l.set i y).set j x
  | _, _ => l

/-- The shuffle loop: iteration at index `i+1` consumes the next draw `j` and
swaps positions `i+1` and `j`; the loop stops at `i = 0` (or if the supplied
draw list runs out, which cannot happen for a full draw list). -/
def fyLoop {α : Type} : List α → List ℕ → ℕ → List α
  | l, _, 0 => l
  | l, [], _ + 1 => l
  | l, j :: rest, i + 1 => fyLoop (swapEntries l (i + 1) j) rest i

/-- The Fisher–Yates shuffle of `l` under the draw sequence `draws`. -/
def fisherYates {α : Type} (l : List α) (draws : List ℕ) : List α :=
  fyLoop l draws (l.length - 1)

/-! ## Contest route handlers (`src/routes/contests.js`) -/

/-- Result of `POST /contests/:id/start`. `validationFailed` carries the full
violation list plus the diagnostic snapshot fields (`error.details` of the
thrown `ValidationError`); `ok` carries the updated document as returned. -/
inductive StartResult where
  | notFound : StartResult
  | validationFailed (validationErrors : List String) (eventId costPerSquare : JsValue)
      (namesCount : ℕ) (status : JsValue) : StartResult
  | ok (id : String) (data : ContestData) : StartResult
deriving DecidableEq

/-- `contestData.names ? contestData.names.length : 0` for the snapshot (the
stored `names` is an array whenever this is reported on a real document;
other truthy values are reported as 0 here). -/
def namesCountOf (c : ContestData) : ℕ :=
  match c.names with
  | .arr ns => ns.length
  | _ => 0

/-- Extract the element list of an array value (the start handler only
reaches this after `validateStartContest` proved `names` is an array; see
`validateStartContest_eq_nil_names_arr`). -/
def jsToArray : JsValue → List JsValue
  | .arr l => l
  | _ => []

/-- `POST /contests/:id/start`: look the contest up, collect the validation
errors, and either fail without touching the store or shuffle the names,
set `status = 'active'` and write the updated document. -/
def startContest (store : ContestStore) (id : String) (draws : List ℕ) (now : ℤ) :
    StartResult × ContestStore :=
  match lookupDoc store id with
  | none => (.notFound, store)
  | some c =>
      let validationErrors := validateStartContest c
      if validationErrors ≠ [] then
        (.validationFailed validationErrors c.eventId c.costPerSquare (namesCountOf c)
           c.status, store)
      else
        let shuffledNames := fisherYates (jsToArray c.names) draws
        let c' : ContestData :=
          { c with
            status := JsValue.str "active"
            names := JsValue.arr shuffledNames
            updatedAt := JsValue.date now }
        (.ok id c', updateDoc store id c')

/-- Result of `PUT /contests/:id`.  `invalidState` is the thrown
`ValidationError` with its message and `details.currentStatus`. -/
inductive UpdateResult where
  | badRequest : UpdateResult
  | notFound : UpdateResult
  | invalidState (message : String) (currentStatus : JsValue) : UpdateResult
  | ok (id : String) (data : ContestData) : UpdateResult
deriving DecidableEq

/-- `PUT /contests/:id`: body validation middleware first, then existence,
then the `validateContestStatus` gate; on success overwrite `names` and
`updatedAt` and return the updated document. -/
def updateNames (store : ContestStore) (id : String) (namesInput : JsValue) (now : ℤ) :
    UpdateResult × ContestStore :=
  match processNamesInput namesInput with
  | none => (.badRequest, store)
  | some names =>
      match lookupDoc store id with
      | none => (.notFound, store)
      | some c =>
          if c.status = JsValue.str "new" then
            let c' : ContestData :=
              { c with
                names := names
                updatedAt := JsValue.date now }
            (.ok id c', updateDoc store id c')
          else
            (.invalidState ("Contest cannot be updated in '" ++ c.status.display ++
               "' state. Only contests in 'new' state can be updated.") c.status, store)

/-- Result of `POST /contests`. -/
inductive CreateResult where
  | badRequest : CreateResult
  | created (documentId : String) (data : ContestData) : CreateResult
deriving DecidableEq

/-- `POST /contests`: after body validation, build the new document with
`status = 'new'` and two consecutive clock readings for `createdAt` and
`updatedAt` (`createdAt: new Date(), updatedAt: new Date()`), add it to the
collection, and return it together with its store-assigned id. -/
def createContest (store : ContestStore) (eventIdField costField : JsValue)
    (clock : ℕ → ℤ) (newId : String) : CreateResult × ContestStore :=
  match processCreateBody eventIdField costField with
  | none => (.badRequest, store)
  | some (eventId, costPerSquare) =>
      let contestData : ContestData :=
        { eventId := .str eventId, costPerSquare := .num costPerSquare,
          createdAt := .date (clock 0), updatedAt := .date (clock 1),
          status := .str "new", names := .undef }
      (.created newId contestData, store ++ [(newId, contestData)])

/-- Result of `GET /contests/:id`. -/
inductive GetResult where
  | notFound : GetResult
  | ok (id : String) (data : ContestData) : GetResult
deriving DecidableEq

/-- `GET /contests/:id`: pure passthrough read. -/
def getContest (store : ContestStore) (id : String) : GetResult :=
  match lookupDoc store id with
  | none => .notFound
  | some c => .ok id c

/-! ## Single-winner registry (`src/routes/bagBuilder.js`) -/

/-- Fields of a document in the `bagBuilderWinners` collection (the stored
fields are exactly `name`, `createdAt`, `updatedAt`; the document id is not
among the fields). -/
structure WinnerFields where
  name : String
  createdAt : ℤ
  updatedAt : ℤ
deriving DecidableEq

/-- The `bagBuilderWinners` collection, in insertion order. -/
abbrev WinnerStore := List (String × WinnerFields)

/-- `checkWinnerExists`: `limit(1).get()` — the data of the first document if
the collection is non-empty (`snapshot.docs[0].data()`, which does not
include the document id). -/
def checkWinnerExists (ws : WinnerStore) : Option WinnerFields :=
  ws.head?.map (·.2)

/-- Result of `POST /bagbuilder/winner/:name`.  `alreadyExists` is the thrown
`ValidationError` with `code: 'winner-already-exists'` and
`details.existingWinner`. -/
inductive SetWinnerResult where
  | validationError : SetWinnerResult
  | alreadyExists (existingWinner : WinnerFields) : SetWinnerResult
  | created (id : String) (data : WinnerFields) : SetWinnerResult
deriving DecidableEq

/-- `POST /bagbuilder/winner/:name`: validate the raw `name` path parameter
with `winnerNameSchema` (no sanitization), then check for an existing winner,
then create `{ name: name.trim(), createdAt: new Date(), updatedAt: new
Date() }`. -/
def setWinner (ws : WinnerStore) (name : String) (clock : ℕ → ℤ) (newId : String) :
    SetWinnerResult × WinnerStore :=
  if !nameValid name then (.validationError, ws)
  else
    match checkWinnerExists ws with
    | some w => (.alreadyExists w, ws)
    | none =>
        let winnerData : WinnerFields :=
          { name := jsTrim name, createdAt := clock 0, updatedAt := clock 1 }
        (.created newId winnerData, ws ++ [(newId, winnerData)])

/-- Result of `GET /bagbuilder/winner`: either the explicit
`{ message: 'No winner yet', data: null }` success, or the winner response
whose `data` object is listed field by field. -/
inductive GetWinnerResult where
  | noWinner : GetWinnerResult
  | winner (data : List (String × JsValue)) : GetWinnerResult
deriving DecidableEq

/-- The response `data` object for an existing winner:
`{ id: winnerCheck.winner.id, ...winnerCheck.winner }`.  The winner document
data has no `id` field, so `winnerCheck.winner.id` is `undefined`, and
`res.json` (JSON serialization) drops `undefined`-valued properties. -/
def winnerResponseData (w : WinnerFields) : List (String × JsValue) :=
  [("id", JsValue.undef), ("name", JsValue.str w.name),
   ("createdAt", JsValue.date w.createdAt),
   ("updatedAt", JsValue.date w.updatedAt)].filter (fun e => e.2 != JsValue.undef)

/-- `GET /bagbuilder/winner`. -/
def getWinner (ws : WinnerStore) : GetWinnerResult :=
  match checkWinnerExists ws with
  | none => .noWinner
  | some w => .winner (winnerResponseData w)

/-! ## Routing surface (`src/server.js`, `src/routes/contests.js`)

The contests router registers exactly `POST /`, `GET /:id`, `PUT /:id` and
`POST /:id/start`; any request matching no route falls through to the
`app.use('*')` 404 handler. -/

/-- HTTP methods used by the service. -/
inductive HttpMethod where
  | get : HttpMethod
  | post : HttpMethod
  | put : HttpMethod
deriving DecidableEq

/-- The route patterns registered on the contests router. -/
inductive ContestRoute where
  | createRoot : ContestRoute
  | getById : ContestRoute
  | putById : ContestRoute
  | postStart : ContestRoute
deriving DecidableEq

/-- The contests router's registered routes, in registration order
(`router.post('/')`, `router.get('/:id')`, `router.put('/:id')`,
`router.post('/:id/start')`). -/
def contestsRoutes : List (HttpMethod × ContestRoute) :=
  [(.post, .createRoot), (.get, .getById), (.put, .putById), (.post, .postStart)]

/-- Whether a route matches a method and a path (given as the list of path
segments below `/contests`; a `:id` parameter matches one non-empty
segment). -/
def routeMatches : HttpMethod × ContestRoute → HttpMethod → List String → Bool
  | (m, .createRoot), m', segs => m == m' && segs == []
  | (m, .getById), m', segs => m == m' && (segs.length == 1 && segs.all (· != ""))
  | (m, .putById), m', segs => m == m' && (segs.length == 1 && segs.all (· != ""))
  | (m, .postStart), m', segs =>
      m == m' &&
      (match segs with
       | [id, action] => id != "" && action == "start"
       | _ => false)

/-- Dispatch outcome for a request under the `/contests` prefix: either some
registered route handles it, or it falls through to the global `app.use('*')`
handler, which answers 404 `NOT_FOUND_ERROR`. -/
inductive DispatchOutcome where
  | handledBy (r : ContestRoute) : DispatchOutcome
  | notFoundFallback : DispatchOutcome
deriving DecidableEq

/-- Express dispatch for a request under `/contests`: the first matching
registered route wins; otherwise the 404 fallback answers. -/
def dispatchContests (m : HttpMethod) (segs : List String) : DispatchOutcome :=
  match contestsRoutes.find? (fun r => routeMatches r m segs) with
  | some r => .handledBy r.2
  | none => .notFoundFallback

/-- The contest endpoints advertised by the service's own root endpoint
(`GET /`, `src/server.js` lines 106–114) — its self-documentation. -/
def advertisedContestEndpoints : List (String × String) :=
  [("create", "POST /contests"), ("getAll", "GET /contests"),
   ("getById", "GET /contests/:id"), ("update", "PUT /contests/:id"),
   ("start", "POST /contests/:id/start")]

/-! ## Store availability (`src/config/firebase.js`)

When Firestore cannot be initialized, the module does **not** export a null
`db`: it substitutes a mock object

```js
db = { collection: () => ({ doc: () => ({
         get: async () => ({ exists: false, data: () => null }),
         set: async () => ({}), update: async () => ({}),
         delete: async () => ({}) }) }) };
```

whose every document `get` reports `exists: false`, and whose collection
object has **no** `add` or `limit` method (calling those throws a
`TypeError`).  The handlers' `if (!db)` guards therefore never fire.  If one
ever did fire, the thrown `ServiceUnavailableError` would reach
`expressErrorHandler` (`src/utils/errorHandler.js`), which maps that unknown
error name to `INTERNAL_ERROR` (HTTP 500); errors thrown inside the handlers'
`try` blocks go to `handleFirebaseError`, which maps `code === 'not-found'`
to `NOT_FOUND_ERROR` (404) and everything else (including the mock's
`TypeError`s) to `DATABASE_ERROR` (503). -/

/-- The exported `db`: either a real Firestore handle (with the two
collections) or the mock fallback object. -/
inductive DbHandle where
  | real (contests : ContestStore) (winners : WinnerStore) : DbHandle
  | mock : DbHandle
deriving DecidableEq

/-- `firebase.js`'s exported `db` value: never `none` — the mock object is
substituted whenever Firestore is not configured.  (The `Option` is the type
the handlers' `if (!db)` guard tests.) -/
def firebaseDb (configured : Bool) (cs : ContestStore) (ws : WinnerStore) :
    Option DbHandle :=
  some (if configured then .real cs ws else .mock)

/-- Outcome of a handler run against the exported `db` value. -/
inductive ApiOutcome (ρ : Type) where
  | unavailable : ApiOutcome ρ
  | typeErrorDb : ApiOutcome ρ
  | result (r : ρ) : ApiOutcome ρ
deriving DecidableEq

/-- `GET /contests/:id` against the exported `db`: the mock's document `get`
reports `exists: false`, so the handler throws its `NotFoundError`. -/
def getContestApi (db : Option DbHandle) (id : String) : ApiOutcome GetResult :=
  match db with
  | none => .unavailable
  | some .mock => .result (getContest [] id)
  | some (.real cs _) => .result (getContest cs id)

/-- `POST /contests` against the exported `db`: on the mock,
`db.collection('contests').add` is `undefined`, so calling it throws a
`TypeError`, caught by the handler and routed to `handleFirebaseError`. -/
def createContestApi (db : Option DbHandle) (eventIdField costField : JsValue)
    (clock : ℕ → ℤ) (newId : String) : ApiOutcome CreateResult × Option DbHandle :=
  match db with
  | none => (.unavailable, db)
  | some .mock =>
      match processCreateBody eventIdField costField with
      | none => (.result .badRequest, db)
      | some _ => (.typeErrorDb, db)
  | some (.real cs ws) =>
      let (r, cs') := createContest cs eventIdField costField clock newId
      (.result r, some (.real cs' ws))

/-- `PUT /contests/:id` against the exported `db`: on the mock the document
lookup reports `exists: false` (body validation still runs first). -/
def updateNamesApi (db : Option DbHandle) (id : String) (namesInput : JsValue)
    (now : ℤ) : ApiOutcome UpdateResult × Option DbHandle :=
  match db with
  | none => (.unavailable, db)
  | some .mock => (.result (updateNames [] id namesInput now).1, db)
  | some (.real cs ws) =>
      let (r, cs') := updateNames cs id namesInput now
      (.result r, some (.real cs' ws))

/-- `POST /contests/:id/start` against the exported `db`: on the mock the
document lookup reports `exists: false`. -/
def startContestApi (db : Option DbHandle) (id : String) (draws : List ℕ)
    (now : ℤ) : ApiOutcome StartResult × Option DbHandle :=
  match db with
  | none => (.unavailable, db)
  | some .mock => (.result (startContest [] id draws now).1, db)
  | some (.real cs ws) =>
      let (r, cs') := startContest cs id draws now
      (.result r, some (.real cs' ws))

/-- `POST /bagbuilder/winner/:name` against the exported `db`: on the mock,
`db.collection('bagBuilderWinners').limit` is `undefined`, so
`checkWinnerExists` throws a `TypeError` (after name validation). -/
def setWinnerApi (db : Option DbHandle) (name : String) (clock : ℕ → ℤ)
    (newId : String) : ApiOutcome SetWinnerResult × Option DbHandle :=
  match db with
  | none => (.unavailable, db)
  | some .mock =>
      if !nameValid name then (.result .validationError, db) else (.typeErrorDb, db)
  | some (.real cs ws) =>
      let (r, ws') := setWinner ws name clock newId
      (.result r, some (.real cs ws'))

/-- `GET /bagbuilder/winner` against the exported `db`: on the mock,
`checkWinnerExists` throws a `TypeError`. -/
def getWinnerApi (db : Option DbHandle) : ApiOutcome GetWinnerResult :=
  match db with
  | none => .unavailable
  | some .mock => .typeErrorDb
  | some (.real _ ws) => .result (getWinner ws)

/-- HTTP status of a `GET /contests/:id` result. -/
def GetResult.statusCode : GetResult → ℕ
  | .notFound => 404
  | .ok _ _ => 200

/-- HTTP status of an `ApiOutcome`, given the status mapping of the inner
result: the dead `if (!db)` branch would produce 500 (`INTERNAL_ERROR` via
`expressErrorHandler`), and a mock `TypeError` produces 503
(`DATABASE_ERROR` via `handleFirebaseError`). -/
def ApiOutcome.statusCode {ρ : Type} (inner : ρ → ℕ) : ApiOutcome ρ → ℕ
  | .unavailable => 500
  | .typeErrorDb => 503
  | .result r => inner r

/-! ## Contest-id validation middleware (`validateContestId`,
`src/middleware/validation.js` lines 114–135)

`validateContestId` runs before the `GET /contests/:id`, `PUT /contests/:id`
and `POST /contests/:id/start` handlers; when `contestIdSchema` rejects the
raw `:id` parameter it answers 400 `VALIDATION_ERROR` immediately, so the
handler (and any store access) is never reached. -/

/-- A route result behind `validateContestId`. -/
inductive Routed (ρ : Type) where
  | idValidationError : Routed ρ
  | through (r : ρ) : Routed ρ
deriving DecidableEq

/-- `GET /contests/:id` including the `validateContestId` middleware. -/
def getContestRoute (db : Option DbHandle) (id : String) :
    Routed (ApiOutcome GetResult) :=
  if contestIdValid id then .through (getContestApi db id) else .idValidationError

/-- `PUT /contests/:id` including the `validateContestId` middleware. -/
def updateNamesRoute (db : Option DbHandle) (id : String) (namesInput : JsValue)
    (now : ℤ) : Routed (ApiOutcome UpdateResult) × Option DbHandle :=
  if contestIdValid id then
    let (r, db') := updateNamesApi db id namesInput now
    (.through r, db')
  else (.idValidationError, db)

/-- `POST /contests/:id/start` including the `validateContestId`
middleware. -/
def startContestRoute (db : Option DbHandle) (id : String) (draws : List ℕ)
    (now : ℤ) : Routed (ApiOutcome StartResult) × Option DbHandle :=
  if contestIdValid id then
    let (r, db') := startContestApi db id draws now
    (.through r, db')
  else (.idValidationError, db)

/-! ## The shuffle is a permutation -/

open scoped List in
theorem getElem_cons_set_perm {α : Type} :
    ∀ (l : List α) (m : ℕ) (h : m < l.length) (b : α),
      l[m] :: l.set m b ~ b :: l
  | c :: t, 0, _, b => List.Perm.swap b c t
  | c :: t, m + 1, h, b => by
      have hm : m < t.length := by simpa using h
      have ih := getElem_cons_set_perm t m hm b
      calc t[m] :: c :: t.set m b
          ~ c :: t[m] :: t.set m b := List.Perm.swap _ _ _
        _ ~ c :: b :: t := ih.cons c
        _ ~ b :: c :: t := List.Perm.swap _ _ _

/-- The list with entry `m` overwritten by its own value is unchanged. -/
theorem set_getElem_self_eq {α : Type} (l : List α) (m : ℕ) (h : m < l.length) :
    l.set m l[m] = l := by
  apply List.ext_getElem?
  intro k
  rw [List.getElem?_set]
  split
  · next hk => subst hk; simp [List.getElem?_eq_getElem h]
  · rfl

open scoped List in
theorem swapEntries_perm {α : Type} (l : List α) (i j : ℕ) :
    swapEntries l i j ~ l := by
  unfold swapEntries
  split
  · next x y hi hj =>
    obtain ⟨hi', hx⟩ := List.getElem?_eq_some_iff.mp hi
    obtain ⟨hj', hy⟩ := List.getElem?_eq_some_iff.mp hj
    subst hx; subst hy
    by_cases hij : i = j
    · subst hij
      rw [List.set_set, set_getElem_self_eq l i hi']
    · have hj2 : j < (l.set i l[j]).length := by simpa using hj'
      have p1 := getElem_cons_set_perm (l.set i l[j]) j hj2 l[i]
      have h1 : (l.set i l[j])[j] = l[j] := List.getElem_set_ne hij hj2
      have p2 := getElem_cons_set_perm l i hi' l[j]
      rw [h1] at p1
      exact (p1.trans p2).cons_inv
  · exact List.Perm.refl l

open scoped List in
theorem fyLoop_perm {α : Type} :
    ∀ (draws : List ℕ) (i : ℕ) (l : List α), fyLoop l draws i ~ l
  | _, 0, l => by simp [fyLoop]
  | [], _ + 1, l => by simp [fyLoop]
  | j :: rest, i + 1, l => by
      have ih := fyLoop_perm rest i (swapEntries l (i + 1) j)
      simpa [fyLoop] using ih.trans (swapEntries_perm l (i + 1) j)

open scoped List in
/-- The output of the shuffle is a rearrangement of its input, whatever the
random draws were. -/
theorem fisherYates_perm {α : Type} (l : List α) (draws : List ℕ) :
    fisherYates l draws ~ l :=
  fyLoop_perm draws (l.length - 1) l

/-! ## The shuffle is unbiased

`Math.floor(Math.random() * (i + 1))` draws uniformly from `{0, …, i}` (the
spec's model of the PRNG).  `allDraws n` enumerates every possible full draw
sequence for an input of length `n`, one entry per loop iteration, first
iteration (`i = n-1`) first; each sequence is equiprobable under the uniform
model.  Unbiasedness of the shuffle is the statement that every
rearrangement of a duplicate-free input is produced by exactly one draw
sequence. -/

/-- All draw sequences for an input of length `n`: the first draw ranges over
`{0, …, n-1}` and the rest is a draw sequence for length `n-1`; inputs of
length ≤ 1 have the empty draw sequence only. -/
def allDraws : ℕ → List (List ℕ)
  | 0 => [[]]
  | 1 => [[]]
  | n + 2 => (List.range (n + 2)).flatMap (fun j => (allDraws (n + 1)).map (j :: ·))

/-- `ValidDraws i d`: `d` is a full in-range draw sequence for the loop
starting at index `i` (`d = [j_i, …, j_1]` with each `j_k ≤ k`). -/
def ValidDraws : ℕ → List ℕ → Prop
  | 0, [] => True
  | 0, _ :: _ => False
  | _ + 1, [] => False
  | i + 1, j :: rest => j ≤ i + 1 ∧ ValidDraws i rest

theorem valid_of_mem_allDraws : ∀ (m : ℕ) (d : List ℕ), d ∈ allDraws m →
    ValidDraws (m - 1) d
  | 0, d, hd => by
      simp [allDraws] at hd
      subst hd
      trivial
  | 1, d, hd => by
      simp [allDraws] at hd
      subst hd
      trivial
  | m + 2, d, hd => by
      simp only [allDraws, List.mem_flatMap, List.mem_map, List.mem_range] at hd
      obtain ⟨j, hj, r, hr, rfl⟩ := hd
      have ih := valid_of_mem_allDraws (m + 1) r hr
      exact ⟨by omega, by simpa using ih⟩

@[simp] theorem swapEntries_length {α : Type} (l : List α) (i j : ℕ) :
    (swapEntries l i j).length = l.length := by
  unfold swapEntries
  split <;> simp

theorem swapEntries_take {α : Type} (l : List α) (a b m : ℕ) (ha : a < m) (hb : b < m) :
    (swapEntries l a b).take m = swapEntries (l.take m) a b := by
  unfold swapEntries
  rw [List.getElem?_take_of_lt ha, List.getElem?_take_of_lt hb]
  cases l[a]? <;> cases l[b]? <;> simp [List.set_take]

theorem swapEntries_drop {α : Type} (l : List α) (a b m : ℕ) (ha : a < m) (hb : b < m) :
    (swapEntries l a b).drop m = l.drop m := by
  unfold swapEntries
  split
  · rw [List.drop_set, if_pos hb, List.drop_set, if_pos ha]
  · rfl

/-- The swapped position `i` receives the old entry at the draw `j`. -/
theorem swapEntries_getElem?_top {α : Type} (l : List α) (i j : ℕ)
    (hi : i < l.length) (hj : j ≤ i) :
    (swapEntries l i j)[i]? = l[j]? := by
  have hj' : j < l.length := lt_of_le_of_lt hj hi
  have hx : l[i]? = some l[i] := List.getElem?_eq_getElem hi
  have hy : l[j]? = some l[j] := List.getElem?_eq_getElem hj'
  have hsw : swapEntries l i j = (l.set i l[j]).set j l[i] := by
    unfold swapEntries
    rw [hx, hy]
  rw [hsw]
  by_cases hij : j = i
  · subst hij
    rw [List.set_set, List.getElem?_set_self (by simpa using hi)]
    exact hy.symm
  · rw [List.getElem?_set_ne hij, List.getElem?_set_self (by simpa using hi)]
    exact hy.symm

/-- A list of length `m + 1` ends with its entry at `m`. -/
theorem drop_length_sub_one {α : Type} (l : List α) (m : ℕ) (hl : l.length = m + 1) :
    l.drop m = [l.get ⟨m, by omega⟩] := by
  have hm : m < l.length := by omega
  rw [List.drop_eq_getElem_cons hm]
  have : l.drop (m + 1) = [] := List.drop_eq_nil_of_le (by omega)
  rw [this]
  simp only [List.get_eq_getElem]

/-- Splitting a drop at an intermediate point. -/
theorem drop_eq_take_drop_append {α : Type} (l : List α) (a b : ℕ) (hab : a ≤ b)
    (hb : b ≤ l.length) :
    l.drop a = (l.take b).drop a ++ l.drop b := by
  conv_lhs => rw [← List.take_append_drop b l]
  rw [List.drop_append_eq_append_drop]
  have : a - (l.take b).length = 0 := by simp; omega
  rw [this, List.drop_zero]

/-- Under in-range draws, the loop below index `i` never touches positions
beyond `i`: running it on the whole list is running it on the prefix of
length `i + 1` and carrying the tail along. -/
theorem fyLoop_take_drop {α : Type} :
    ∀ (i : ℕ) (rest : List ℕ) (l : List α), ValidDraws i rest → i + 1 ≤ l.length →
      fyLoop l rest i = fyLoop (l.take (i + 1)) rest i ++ l.drop (i + 1)
  | 0, rest, l, hv, _ => by
      cases rest with
      | nil =>
          show l = List.take 1 l ++ List.drop 1 l
          exact (List.take_append_drop 1 l).symm
      | cons j r => exact absurd hv (by simp [ValidDraws])
  | i + 1, rest, l, hv, hl => by
      cases rest with
      | nil => exact absurd hv (by simp [ValidDraws])
      | cons j r =>
        obtain ⟨hj, hv'⟩ := hv
        have hlen : i + 2 ≤ l.length := hl
        have hsl : (swapEntries l (i + 1) j).length = l.length := swapEntries_length ..
        have ih1 := fyLoop_take_drop i r (swapEntries l (i + 1) j) hv' (by omega)
        have ih2 := fyLoop_take_drop i r ((swapEntries l (i + 1) j).take (i + 2)) hv'
          (by simp [List.length_take]; omega)
        have hswt : swapEntries (l.take (i + 2)) (i + 1) j
            = (swapEntries l (i + 1) j).take (i + 2) :=
          (swapEntries_take l (i + 1) j (i + 2) (by omega) (by omega)).symm
        have htt : ((swapEntries l (i + 1) j).take (i + 2)).take (i + 1)
            = (swapEntries l (i + 1) j).take (i + 1) := by
          rw [List.take_take]
          congr 1
          omega
        have hdd : ((swapEntries l (i + 1) j).take (i + 2)).drop (i + 1)
              ++ l.drop (i + 2)
            = (swapEntries l (i + 1) j).drop (i + 1) := by
          rw [← swapEntries_drop l (i + 1) j (i + 2) (by omega) (by omega)]
          exact (drop_eq_take_drop_append (swapEntries l (i + 1) j) (i + 1) (i + 2)
            (by omega) (by omega)).symm
        have hL : fyLoop l (j :: r) (i + 1) = fyLoop (swapEntries l (i + 1) j) r i := by
          simp [fyLoop]
        have hR : fyLoop (l.take (i + 2)) (j :: r) (i + 1)
            = fyLoop ((swapEntries l (i + 1) j).take (i + 2)) r i := by
          simp [fyLoop, hswt]
        rw [hL, hR, ih1, ih2, htt, List.append_assoc, hdd]

/-- The front part of the list handed to the remaining loop iterations after
the first swap of a full-length run. -/
def fyFront {α : Type} (l : List α) (n j : ℕ) : List α :=
  (swapEntries l (n + 1) j).take (n + 1)

theorem fyFront_length {α : Type} (l : List α) (n j : ℕ) (hl : l.length = n + 2) :
    (fyFront l n j).length = n + 1 := by
  simp [fyFront, List.length_take, hl]

open scoped List in
/-- The first swap splits off the output's last element: position `n+1`
receives `l[j]`, and the rest of the loop permutes only the front. -/
theorem swapEntries_decomp {α : Type} (l : List α) (n j : ℕ) (hl : l.length = n + 2)
    (hj : j ≤ n + 1) :
    swapEntries l (n + 1) j = fyFront l n j ++ [l.get ⟨j, by omega⟩] := by
  have hs : (swapEntries l (n + 1) j).length = n + 2 := by simp [hl]
  conv_lhs => rw [← List.take_append_drop (n + 1) (swapEntries l (n + 1) j)]
  rw [drop_length_sub_one _ (n + 1) hs]
  have htop := swapEntries_getElem?_top l (n + 1) j (by omega) hj
  have hjlt : j < l.length := by omega
  rw [List.getElem?_eq_getElem (by omega : n + 1 < (swapEntries l (n + 1) j).length),
    List.getElem?_eq_getElem hjlt] at htop
  have := Option.some.inj htop
  simp only [List.get_eq_getElem]
  rw [fyFront, this]

open scoped List in
theorem fyFront_append_perm {α : Type} (l : List α) (n j : ℕ) (hl : l.length = n + 2)
    (hj : j ≤ n + 1) :
    fyFront l n j ++ [l.get ⟨j, by omega⟩] ~ l := by
  rw [← swapEntries_decomp l n j hl hj]
  exact swapEntries_perm l (n + 1) j

theorem fyFront_nodup {α : Type} (l : List α) (n j : ℕ) (hnd : l.Nodup) :
    (fyFront l n j).Nodup :=
  ((List.take_sublist _ _).nodup ((swapEntries_perm l (n + 1) j).nodup_iff.mpr hnd))

open scoped List in
/-- Full decomposition of a length-`n+2` run of the shuffle: the output is
the shuffle of the front followed by `l[j]` as last element. -/
theorem fisherYates_cons_decomp {α : Type} (l : List α) (n j : ℕ) (r : List ℕ)
    (hl : l.length = n + 2) (hj : j ≤ n + 1) (hr : ValidDraws n r) :
    fisherYates l (j :: r) = fisherYates (fyFront l n j) r ++ [l.get ⟨j, by omega⟩] := by
  have h1 : fisherYates l (j :: r) = fyLoop (swapEntries l (n + 1) j) r n := by
    rw [fisherYates, hl]
    simp [fyLoop]
  have h2 := fyLoop_take_drop n r (swapEntries l (n + 1) j) hr
    (by simp [hl])
  have h3 : fisherYates (fyFront l n j) r = fyLoop (fyFront l n j) r n := by
    rw [fisherYates, fyFront_length l n j hl]
    simp
  rw [h1, h2, h3, fyFront]
  congr 1
  have hs : (swapEntries l (n + 1) j).length = n + 2 := by simp [hl]
  rw [drop_length_sub_one _ (n + 1) hs]
  have htop := swapEntries_getElem?_top l (n + 1) j (by omega) hj
  have hjlt : j < l.length := by omega
  rw [List.getElem?_eq_getElem (by omega : n + 1 < (swapEntries l (n + 1) j).length),
    List.getElem?_eq_getElem hjlt] at htop
  simp only [List.get_eq_getElem]
  rw [Option.some.inj htop]

theorem length_filter_flatMap {α β : Type} (xs : List α) (f : α → List β) (p : β → Bool) :
    ((xs.flatMap f).filter p).length
      = (xs.map (fun x => ((f x).filter p).length)).sum := by
  induction xs with
  | nil => simp
  | cons x xs ih => simp [List.filter_append, ih]

theorem length_filter_map_cons (j : ℕ) (ds : List (List ℕ)) (p : List ℕ → Bool) :
    ((ds.map (j :: ·)).filter p).length = (ds.filter (fun d => p (j :: d))).length := by
  simp only [List.filter_map, List.length_map]
  rfl

theorem sum_map_range_zero (m : ℕ) (f : ℕ → ℕ) (h : ∀ j < m, f j = 0) :
    ((List.range m).map f).sum = 0 := by
  apply List.sum_eq_zero
  intro x hx
  simp only [List.mem_map, List.mem_range] at hx
  obtain ⟨j, hj, rfl⟩ := hx
  exact h j hj

theorem sum_map_range_single (m j₀ : ℕ) (f : ℕ → ℕ) (hj : j₀ < m)
    (h0 : ∀ j < m, j ≠ j₀ → f j = 0) :
    ((List.range m).map f).sum = f j₀ := by
  induction m with
  | zero => exact absurd hj (by omega)
  | succ m ih =>
    rw [List.range_succ, List.map_append, List.sum_append]
    by_cases hcase : j₀ = m
    · rw [sum_map_range_zero m f (fun j hjm => h0 j (by omega) (by omega))]
      simp [hcase]
    · have hj' : j₀ < m := by omega
      rw [ih hj' (fun j hjm hne => h0 j (by omega) hne)]
      have hm : f m = 0 := h0 m (by omega) (fun he => hcase he.symm)
      simp [hm]

open scoped List in
/-- **Unbiasedness.**  For a duplicate-free input, every rearrangement is
produced by exactly one full draw sequence (and non-rearrangements by none):
under uniform draws, every permutation of the roster is equally likely. -/
theorem fisherYates_fiber_count {α : Type} [DecidableEq α] :
    ∀ (n : ℕ) (l w : List α), l.length = n → l.Nodup →
      ((allDraws n).filter (fun d => fisherYates l d = w)).length
        = if w ~ l then 1 else 0
  | 0, l, w, hl, _ => by
      have hnil : l = [] := List.eq_nil_of_length_eq_zero hl
      subst hnil
      by_cases hw : w = []
      · subst hw
        simp [allDraws, fisherYates, fyLoop]
      · simp [allDraws, fisherYates, fyLoop, hw, List.perm_nil, Ne.symm hw]
  | 1, l, w, hl, _ => by
      obtain ⟨a, rfl⟩ : ∃ a, l = [a] := List.length_eq_one.mp hl
      by_cases hw : w = [a]
      · subst hw
        simp [allDraws, fisherYates, fyLoop, List.perm_singleton]
      · simp [allDraws, fisherYates, fyLoop, hw, List.perm_singleton, Ne.symm hw]
  | n + 2, l, w, hl, hnd => by
      rw [allDraws, length_filter_flatMap]
      have hinner : ∀ j (hj : j < n + 2),
          (((allDraws (n + 1)).map (j :: ·)).filter
              (fun d => fisherYates l d = w)).length
            = ((allDraws (n + 1)).filter
                (fun d => fisherYates (fyFront l n j) d ++ [l.get ⟨j, by omega⟩] = w)).length := by
        intro j hj
        rw [length_filter_map_cons]
        apply congrArg List.length
        apply List.filter_congr
        intro d hd
        have hvd : ValidDraws n d := by
          have := valid_of_mem_allDraws (n + 1) d hd
          simpa using this
        apply decide_eq_decide.mpr
        rw [fisherYates_cons_decomp l n j d hl (by omega) hvd]
      by_cases hperm : w ~ l
      · rw [if_pos hperm]
        have hwne : w ≠ [] := by
          intro h
          subst h
          have := hperm.length_eq
          simp [hl] at this
        have hwsplit : w.dropLast ++ [w.getLast hwne] = w :=
          List.dropLast_concat_getLast hwne
        have hmem : w.getLast hwne ∈ l := hperm.mem_iff.mp (List.getLast_mem hwne)
        obtain ⟨j₀, hj₀lt, hj₀⟩ := List.mem_iff_getElem.mp hmem
        have hj₀lt' : j₀ < n + 2 := by omega
        have hlastw : w.getLast? = some (w.getLast hwne) :=
          List.getLast?_eq_getLast w hwne
        rw [sum_map_range_single (n + 2) j₀ _ hj₀lt'
          (by
            intro j hj hne
            rw [hinner j hj]
            rw [List.length_eq_zero, List.filter_eq_nil_iff]
            intro d _
            simp only [decide_eq_true_eq]
            intro heq
            have hlast : w.getLast? = some (l.get ⟨j, by omega⟩) := by
              rw [← heq, List.getLast?_concat]
            rw [hlastw] at hlast
            have hlj : l.get ⟨j, by omega⟩ = l.get ⟨j₀, by omega⟩ := by
              simp only [List.get_eq_getElem]
              rw [hj₀]
              exact (Option.some.inj hlast).symm
            exact hne ((hnd.getElem_inj_iff).mp hlj))]
        rw [hinner j₀ hj₀lt']
        have hfront_perm : w.dropLast ~ fyFront l n j₀ := by
          have happ : fyFront l n j₀ ++ [l.get ⟨j₀, by omega⟩] ~ l :=
            fyFront_append_perm l n j₀ hl (by omega)
          simp only [List.get_eq_getElem] at happ
          rw [hj₀] at happ
          have h1 : w.dropLast ++ [w.getLast hwne] ~ fyFront l n j₀ ++ [w.getLast hwne] := by
            rw [hwsplit]
            exact hperm.trans happ.symm
          have h2 := (List.perm_append_singleton _ _).symm.trans
            (h1.trans (List.perm_append_singleton _ _))
          exact h2.cons_inv
        have hfve : ((allDraws (n + 1)).filter
            (fun d => fisherYates (fyFront l n j₀) d ++ [l.get ⟨j₀, by omega⟩] = w)).length
            = ((allDraws (n + 1)).filter
                (fun d => fisherYates (fyFront l n j₀) d = w.dropLast)).length := by
          apply congrArg List.length
          apply List.filter_congr
          intro d _
          apply decide_eq_decide.mpr
          constructor
          · intro heq
            have hws' : w.dropLast ++ [l.get ⟨j₀, by omega⟩] = w := by
              simp only [List.get_eq_getElem]
              rw [hj₀]
              exact hwsplit
            exact (List.append_left_inj _).mp (heq.trans hws'.symm)
          · intro heq
            simp only [List.get_eq_getElem]
            rw [heq, hj₀]
            exact hwsplit
        rw [hfve,
          fisherYates_fiber_count (n + 1) (fyFront l n j₀) w.dropLast
            (fyFront_length l n j₀ hl) (fyFront_nodup l n j₀ hnd),
          if_pos hfront_perm]
      · rw [if_neg hperm]
        apply sum_map_range_zero
        intro j hj
        rw [hinner j hj]
        rw [List.length_eq_zero, List.filter_eq_nil_iff]
        intro d _
        simp only [decide_eq_true_eq]
        intro heq
        apply hperm
        rw [← heq]
        exact ((fisherYates_perm _ _).append_right _).trans
          (fyFront_append_perm l n j hl (by omega))

/-! ## Start preconditions, spec-side -/

/-- The start preconditions exactly as claimed (C1): status `new`, `eventId`
present (truthy), `costPerSquare` a positive number, and `names` an array of
exactly 100 entries, each a **non-empty string**. -/
def StartPreconditionsClaimed (c : ContestData) : Prop :=
  c.status = JsValue.str "new" ∧ c.eventId.truthy = true ∧
  (∃ q : ℚ, c.costPerSquare = JsValue.num q ∧ 0 < q) ∧
  (∃ ns : List JsValue, c.names = JsValue.arr ns ∧ ns.length = 100 ∧
    ∀ v ∈ ns, ∃ s : String, v = JsValue.str s ∧ s ≠ "")

/-- The start preconditions as the code enforces them: as claimed, except
that each `names` entry must be non-empty **after trimming** (the per-entry
check is `names[i].trim() === ''`). -/
def StartPreconditions (c : ContestData) : Prop :=
  c.status = JsValue.str "new" ∧ c.eventId.truthy = true ∧
  (∃ q : ℚ, c.costPerSquare = JsValue.num q ∧ 0 < q) ∧
  (∃ ns : List JsValue, c.names = JsValue.arr ns ∧ ns.length = 100 ∧
    ∀ v ∈ ns, ∃ s : String, v = JsValue.str s ∧ jsTrim s ≠ "")

theorem firstBadName_eq_none_iff :
    ∀ (ns : List JsValue) (i : ℕ),
      firstBadName ns i = none ↔ ∀ v ∈ ns, badNameEntry v = false
  | [], i => by simp [firstBadName]
  | v :: rest, i => by
      by_cases hv : badNameEntry v
      · simp [firstBadName, hv]
      · rw [Bool.not_eq_true] at hv
        simp [firstBadName, hv, firstBadName_eq_none_iff rest (i + 1)]

theorem badNameEntry_eq_false_iff (v : JsValue) :
    badNameEntry v = false ↔ ∃ s : String, v = JsValue.str s ∧ jsTrim s ≠ "" := by
  cases v <;> simp [badNameEntry]

/-- The start-validation error list is empty exactly when the code-enforced
preconditions hold. -/
theorem validateStartContest_eq_nil_iff (c : ContestData) :
    validateStartContest c = [] ↔ StartPreconditions c := by
  unfold validateStartContest StartPreconditions
  rw [List.append_eq_nil, List.append_eq_nil, List.append_eq_nil]
  constructor
  · rintro ⟨⟨⟨h1, h2⟩, h3⟩, h4⟩
    refine ⟨?_, ?_, ?_, ?_⟩
    · by_contra hst
      simp [hst] at h1
    · by_contra hev
      simp [hev] at h2
    · rcases hcost : c.costPerSquare with _ | _ | b | q | s | ms | xs <;> rw [hcost] at h3
      case num =>
        refine ⟨q, rfl, ?_⟩
        by_contra hq
        push_neg at hq
        have hcond : (!(JsValue.num q).truthy || !(JsValue.num q).isNumber
            || (JsValue.num q).numNonpos) = true := by
          simp [JsValue.numNonpos, hq]
        rw [if_pos hcond] at h3
        exact absurd h3 (by simp)
      all_goals
        exact absurd h3 (by simp [JsValue.truthy, JsValue.isNumber, JsValue.numNonpos])
    · rcases hnames : c.names with _ | _ | b | q | s | ms | ns <;> rw [hnames] at h4 <;>
        simp only [namesStartErrors] at h4
      case arr =>
        by_cases hlen : ns.length = 100
        · rw [if_neg (fun hc => hc hlen)] at h4
          refine ⟨ns, rfl, hlen, ?_⟩
          rcases hfb : firstBadName ns 0 with _ | i
          · intro v hv
            exact (badNameEntry_eq_false_iff v).mp
              (((firstBadName_eq_none_iff ns 0).mp hfb) v hv)
          · rw [hfb] at h4
            exact absurd h4 (by simp)
        · rw [if_pos hlen] at h4
          exact absurd h4 (by simp)
      all_goals exact absurd h4 (by simp)
  · rintro ⟨h1, h2, ⟨q, hq, hq0⟩, ⟨ns, hns, hlen, hgood⟩⟩
    refine ⟨⟨⟨?_, ?_⟩, ?_⟩, ?_⟩
    · simp [h1]
    · simp [h2]
    · rw [hq]
      simp [JsValue.truthy, JsValue.isNumber, JsValue.numNonpos, ne_of_gt hq0,
        not_le.mpr hq0]
    · rw [hns, namesStartErrors]
      rw [if_neg (fun hc => hc hlen)]
      have hfb : firstBadName ns 0 = none :=
        (firstBadName_eq_none_iff ns 0).mpr
          (fun v hv => (badNameEntry_eq_false_iff v).mpr (hgood v hv))
      rw [hfb]

/-- When start validation passes, the stored `names` really is an array (used
by the success branch of `startContest`). -/
theorem validateStartContest_eq_nil_names_arr (c : ContestData)
    (h : validateStartContest c = []) : ∃ ns, c.names = JsValue.arr ns := by
  obtain ⟨_, _, _, ns, hns, _, _⟩ := (validateStartContest_eq_nil_iff c).mp h
  exact ⟨ns, hns⟩

/-- C1: For every stored contest, `Start` succeeds iff the (trim-corrected)
preconditions hold; on any violation the call fails carrying the full
violation list and the store is untouched; each violated precondition
contributes its message to the list (no short-circuiting). -/
theorem startContest_success_iff_preconditions :
    ∀ (store : ContestStore) (id : String) (c : ContestData) (draws : List ℕ)
      (now : ℤ), lookupDoc store id = some c →
      ((∃ d, (startContest store id draws now).1 = StartResult.ok id d) ↔
          StartPreconditions c) ∧
      (¬ StartPreconditions c →
        (startContest store id draws now).1
            = StartResult.validationFailed (validateStartContest c) c.eventId
                c.costPerSquare (namesCountOf c) c.status ∧
          (startContest store id draws now).2 = store) ∧
      (c.status ≠ JsValue.str "new" →
        ("Contest cannot be started in '" ++ c.status.display ++
          "' state. Only contests in 'new' state can be started.")
            ∈ validateStartContest c) ∧
      (c.eventId.truthy = false → "eventId is missing" ∈ validateStartContest c) ∧
      ((!c.costPerSquare.truthy || !c.costPerSquare.isNumber
          || c.costPerSquare.numNonpos) = true →
        "costPerSquare is missing or invalid" ∈ validateStartContest c) := by
  intro store id c draws now hlk
  refine ⟨?_, ?_, ?_, ?_, ?_⟩
  · by_cases hval : validateStartContest c = []
    · constructor
      · intro _
        exact (validateStartContest_eq_nil_iff c).mp hval
      · intro _
        simp only [startContest, hlk, hval]
        exact ⟨_, rfl⟩
    · constructor
      · intro ⟨d, hd⟩
        simp only [startContest, hlk, if_pos hval] at hd
        exact StartResult.noConfusion hd
      · intro hpre
        exact absurd ((validateStartContest_eq_nil_iff c).mpr hpre) hval
  · intro hpre
    have hval : validateStartContest c ≠ [] :=
      fun h => hpre ((validateStartContest_eq_nil_iff c).mp h)
    constructor
    · simp only [startContest, hlk, if_pos hval]
    · simp only [startContest, hlk, if_pos hval]
  · intro hst
    simp only [validateStartContest, if_neg hst]
    exact List.mem_append.mpr (Or.inl (List.mem_append.mpr (Or.inl
      (List.mem_append.mpr (Or.inl (List.mem_singleton.mpr rfl))))))
  · intro hev
    simp only [validateStartContest, hev]
    simp
  · intro hcost
    simp only [validateStartContest, hcost]
    simp

/-- A stored roster of 99 copies of `"a"` followed by a single all-whitespace
name `" "`. -/
def whitespaceRoster : List JsValue :=
  List.replicate 99 (JsValue.str "a") ++ [JsValue.str " "]

/-- A stored contest satisfying every precondition *as the claim words them*
(names are all non-empty strings), except that entry 99 is whitespace-only. -/
def whitespaceRosterContest : ContestData :=
  { eventId := JsValue.str "evt1", costPerSquare := JsValue.num 10,
    names := JsValue.arr whitespaceRoster, status := JsValue.str "new",
    createdAt := JsValue.date 0, updatedAt := JsValue.date 0 }

/-- A stored contest meeting every start precondition. -/
def fullRosterContest : ContestData :=
  { eventId := JsValue.str "evt1", costPerSquare := JsValue.num 10,
    names := JsValue.arr (List.replicate 100 (JsValue.str "a")),
    status := JsValue.str "new", createdAt := JsValue.date 0,
    updatedAt := JsValue.date 0 }

/-- C1 as stated fails: this contest's fields satisfy the claim's wording
(status `new`, eventId present, positive cost, 100 entries, every entry a
non-empty string), yet `Start` rejects it, because the code requires each
entry to be non-empty *after trimming*. -/
theorem startContest_claimed_iff_false :
    StartPreconditionsClaimed whitespaceRosterContest ∧
    (¬ ∃ d, (startContest [("c1", whitespaceRosterContest)] "c1" [] 0).1
        = StartResult.ok "c1" d) ∧
    (startContest [("c1", whitespaceRosterContest)] "c1" [] 0).1
      = StartResult.validationFailed ["names[99] must be a non-empty string"]
          (JsValue.str "evt1") (JsValue.num 10) 100 (JsValue.str "new") := by
  have heval : (startContest [("c1", whitespaceRosterContest)] "c1" [] 0).1
      = StartResult.validationFailed ["names[99] must be a non-empty string"]
          (JsValue.str "evt1") (JsValue.num 10) 100 (JsValue.str "new") := by
    decide
  refine ⟨⟨rfl, by decide, ⟨10, rfl, by norm_num⟩, whitespaceRoster, rfl, by decide, ?_⟩,
    ?_, heval⟩
  · intro v hv
    rcases List.mem_append.mp hv with h | h
    · exact ⟨"a", List.eq_of_mem_replicate h, by decide⟩
    · refine ⟨" ", ?_, by decide⟩
      simpa using h
  · intro ⟨d, hd⟩
    rw [heval] at hd
    exact absurd hd (by simp)

theorem startContest_success_iff_preconditions_witness :
    lookupDoc [("c1", fullRosterContest)] "c1" = some fullRosterContest ∧
    (∃ d, (startContest [("c1", fullRosterContest)] "c1" [] 0).1
        = StartResult.ok "c1" d) :=
  ⟨rfl,
    (startContest_success_iff_preconditions [("c1", fullRosterContest)] "c1"
      fullRosterContest [] 0 rfl).1.mpr
      ⟨rfl, by decide, ⟨10, rfl, by norm_num⟩,
        List.replicate 100 (JsValue.str "a"), rfl, by decide,
        fun v hv => ⟨"a", List.eq_of_mem_replicate hv, by decide⟩⟩⟩

open scoped List in
/-- C2: when the start preconditions hold, the handler's new names sequence
is the Fisher–Yates shuffle of the stored names under the recorded draws;
for every roster and draw sequence the output has the input's length and
multiset, and for a duplicate-free roster every rearrangement arises from
exactly one draw sequence (uniformly distributed output under uniform
draws). -/
theorem startContest_fisherYates_unbiased_permutation :
    (∀ (store : ContestStore) (id : String) (c : ContestData) (ns : List JsValue)
        (draws : List ℕ) (now : ℤ),
        lookupDoc store id = some c → validateStartContest c = [] →
        c.names = JsValue.arr ns →
        (startContest store id draws now).1
          = StartResult.ok id
              { c with
                status := JsValue.str "active"
                names := JsValue.arr (fisherYates ns draws)
                updatedAt := JsValue.date now }) ∧
    (∀ (α : Type) (l : List α) (draws : List ℕ),
        (fisherYates l draws).length = l.length ∧
        (↑(fisherYates l draws) : Multiset α) = (↑l : Multiset α)) ∧
    (∀ (α : Type) [DecidableEq α] (l w : List α), l.Nodup →
        ((allDraws l.length).filter (fun d => fisherYates l d = w)).length
          = if w ~ l then 1 else 0) := by
  refine ⟨?_, ?_, ?_⟩
  · intro store id c ns draws now hlk hval hns
    have hcond : ¬(validateStartContest c ≠ []) := fun hc => hc hval
    simp only [startContest, hlk, if_neg hcond, hns, jsToArray]
  · intro α l draws
    exact ⟨(fisherYates_perm l draws).length_eq,
      Multiset.coe_eq_coe.mpr (fisherYates_perm l draws)⟩
  · intro α _ l w hnd
    exact fisherYates_fiber_count l.length l w rfl hnd

theorem startContest_fisherYates_unbiased_permutation_witness :
    (startContest [("c1", fullRosterContest)] "c1" [] 0).1
      = StartResult.ok "c1"
          { fullRosterContest with
            status := JsValue.str "active"
            names := JsValue.arr (fisherYates (List.replicate 100 (JsValue.str "a")) [])
            updatedAt := JsValue.date 0 } ∧
    (fisherYates ["a", "b"] [1]).length = 2 ∧
    ((allDraws (["a", "b"] : List String).length).filter
        (fun d => fisherYates ["a", "b"] d = ["b", "a"])).length = 1 := by
  refine ⟨startContest_fisherYates_unbiased_permutation.1 _ "c1" fullRosterContest _
    [] 0 rfl (by decide) rfl, ?_, ?_⟩
  · have h := (startContest_fisherYates_unbiased_permutation.2.1 String ["a", "b"] [1]).1
    simpa using h
  · have h := startContest_fisherYates_unbiased_permutation.2.2 String ["a", "b"]
      ["b", "a"] (by decide)
    rw [if_pos (by decide)] at h
    exact h

/-- A stored contest that has already been started. -/
def startedContest : ContestData :=
  { fullRosterContest with status := JsValue.str "active" }

/-- A freshly created contest (status `new`, no names yet). -/
def freshContest : ContestData :=
  { eventId := JsValue.str "evt1", costPerSquare := JsValue.num 10,
    names := JsValue.undef, status := JsValue.str "new",
    createdAt := JsValue.date 0, updatedAt := JsValue.date 0 }

/-- C3: with valid input and an existing contest, `UpdateNames` succeeds iff
the current status is `"new"`; otherwise the failure carries the current
status (as `details.currentStatus` of the thrown error, and embedded in its
message) and the stored record is unchanged. -/
theorem updateNames_success_iff_status_new :
    ∀ (store : ContestStore) (id : String) (input names : JsValue)
      (c : ContestData) (now : ℤ),
      processNamesInput input = some names → lookupDoc store id = some c →
      ((∃ d, (updateNames store id input now).1 = UpdateResult.ok id d) ↔
          c.status = JsValue.str "new") ∧
      (c.status ≠ JsValue.str "new" →
        (updateNames store id input now).1
            = UpdateResult.invalidState
                ("Contest cannot be updated in '" ++ c.status.display ++
                  "' state. Only contests in 'new' state can be updated.") c.status ∧
          (updateNames store id input now).2 = store) := by
  intro store id input names c now hproc hlk
  constructor
  · by_cases hst : c.status = JsValue.str "new"
    · simp only [updateNames, hproc, hlk, if_pos hst]
      exact ⟨fun _ => hst, fun _ => ⟨_, rfl⟩⟩
    · simp only [updateNames, hproc, hlk, if_neg hst]
      constructor
      · intro ⟨d, hd⟩
        exact UpdateResult.noConfusion hd
      · intro h
        exact absurd h hst
  · intro hst
    simp only [updateNames, hproc, hlk, if_neg hst]
    constructor <;> trivial

theorem updateNames_success_iff_status_new_witness :
    processNamesInput (JsValue.arr [JsValue.str "bob"])
        = some (JsValue.arr [JsValue.str "bob"]) ∧
    lookupDoc [("c1", startedContest)] "c1" = some startedContest ∧
    (updateNames [("c1", startedContest)] "c1" (JsValue.arr [JsValue.str "bob"]) 0).1
        = UpdateResult.invalidState
            ("Contest cannot be updated in '" ++ (JsValue.str "active").display ++
              "' state. Only contests in 'new' state can be updated.")
            (JsValue.str "active") ∧
    (updateNames [("c1", startedContest)] "c1" (JsValue.arr [JsValue.str "bob"]) 0).2
        = [("c1", startedContest)] := by
  have h := updateNames_success_iff_status_new [("c1", startedContest)] "c1"
    (JsValue.arr [JsValue.str "bob"]) (JsValue.arr [JsValue.str "bob"])
    startedContest 0 (by decide) rfl
  have h2 := h.2 (by decide)
  exact ⟨by decide, rfl, h2.1, h2.2⟩

/-- C7 (amended): the `names` body is accepted iff, **after sanitization**
(each string entry trimmed and stripped of `<`/`>`, entries equal to the
empty string afterwards silently dropped), the result is an array of 1–100
strings each of 1–100 characters; a rejection causes no write. -/
theorem processNamesInput_accepts_iff_sanitized_shape :
    ∀ (input : JsValue),
      ((∃ v, processNamesInput input = some v) ↔
        (∃ xs : List JsValue, sanitizeInput input = JsValue.arr xs ∧
          1 ≤ xs.length ∧ xs.length ≤ 100 ∧
          ∀ v ∈ xs, ∃ s : String, v = JsValue.str s ∧ 1 ≤ s.length ∧
            s.length ≤ 100)) ∧
      (processNamesInput input = none →
        ∀ (store : ContestStore) (id : String) (now : ℤ),
          (updateNames store id input now).1 = UpdateResult.badRequest ∧
          (updateNames store id input now).2 = store) := by
  intro input
  constructor
  · have hiff : namesArrayValid (sanitizeInput input) = true ↔
        (∃ xs : List JsValue, sanitizeInput input = JsValue.arr xs ∧
          1 ≤ xs.length ∧ xs.length ≤ 100 ∧
          ∀ v ∈ xs, ∃ s : String, v = JsValue.str s ∧ 1 ≤ s.length ∧
            s.length ≤ 100) := by
      rcases hsan : sanitizeInput input with _ | _ | b | q | s | ms | xs <;>
        simp only [namesArrayValid]
      case arr =>
        rw [Bool.and_eq_true, Bool.and_eq_true, List.all_eq_true]
        constructor
        · rintro ⟨⟨hmin, hmax⟩, hall⟩
          refine ⟨xs, rfl, by simpa using hmin, by simpa using hmax, ?_⟩
          intro v hv
          have := hall v hv
          rcases v with _ | _ | b | q | s | ms | ys <;> simp [joiNameOk, nameValid] at this
          exact ⟨s, rfl, this.1, this.2⟩
        · rintro ⟨xs', hxs', hmin, hmax, hgood⟩
          obtain rfl : xs = xs' := JsValue.arr.inj hxs'
          refine ⟨⟨by simpa using hmin, by simpa using hmax⟩, ?_⟩
          intro v hv
          obtain ⟨s, rfl, h1, h2⟩ := hgood v hv
          simp [joiNameOk, nameValid, h1, h2]
      all_goals
        constructor
        · intro h
          exact absurd h (by simp)
        · rintro ⟨xs, hxs, -⟩
          exact JsValue.noConfusion hxs
    constructor
    · intro ⟨v, hv⟩
      apply hiff.mp
      by_contra hcontra
      rw [Bool.not_eq_true] at hcontra
      simp [processNamesInput, hcontra] at hv
    · intro hshape
      refine ⟨sanitizeInput input, ?_⟩
      simp [processNamesInput, hiff.mpr hshape]
  · intro hnone store id now
    simp only [updateNames, hnone]
    constructor <;> trivial

/-- C7 as stated fails: an input containing an empty-string entry is *not*
rejected — the empty entry is silently dropped by `sanitizeArray` and the
remaining names are accepted and written. -/
theorem updateNames_empty_entry_accepted :
    processNamesInput (JsValue.arr [JsValue.str "a", JsValue.str ""])
        = some (JsValue.arr [JsValue.str "a"]) ∧
    (updateNames [("c1", freshContest)] "c1"
        (JsValue.arr [JsValue.str "a", JsValue.str ""]) 0).1
      = UpdateResult.ok "c1"
          { freshContest with
            names := JsValue.arr [JsValue.str "a"]
            updatedAt := JsValue.date 0 } ∧
    (updateNames [("c1", freshContest)] "c1"
        (JsValue.arr [JsValue.str "a", JsValue.str ""]) 0).2
      = [("c1", { freshContest with
            names := JsValue.arr [JsValue.str "a"]
            updatedAt := JsValue.date 0 })] := by
  refine ⟨by decide, by decide, by decide⟩

theorem processNamesInput_accepts_iff_sanitized_shape_witness :
    processNamesInput (JsValue.arr []) = none ∧
    (updateNames [] "c1" (JsValue.arr []) 0).1 = UpdateResult.badRequest :=
  ⟨by decide,
    ((processNamesInput_accepts_iff_sanitized_shape (JsValue.arr [])).2 (by decide)
      [] "c1" 0).1⟩

/-! ## C4: the single-winner invariant -/

/-- C4 (amended): `SetWinner` succeeds iff the name is valid and no winner
exists; once one exists, no call writes — a valid name gets `AlreadyExists`
with the existing record attached, an invalid one gets `ValidationError` —
and the collection never grows beyond one record. -/
theorem setWinner_at_most_one :
    ∀ (ws : WinnerStore) (name : String) (clock : ℕ → ℤ) (newId : String),
      ((∃ id d, (setWinner ws name clock newId).1 = SetWinnerResult.created id d) ↔
          (nameValid name = true ∧ ws = [])) ∧
      (nameValid name = true → ws = [] →
        setWinner ws name clock newId
          = (SetWinnerResult.created newId
              { name := jsTrim name, createdAt := clock 0, updatedAt := clock 1 },
             [(newId,
               { name := jsTrim name, createdAt := clock 0, updatedAt := clock 1 })])) ∧
      (∀ w, checkWinnerExists ws = some w → nameValid name = true →
        (setWinner ws name clock newId).1 = SetWinnerResult.alreadyExists w ∧
        (setWinner ws name clock newId).2 = ws) ∧
      (nameValid name = false →
        (setWinner ws name clock newId).1 = SetWinnerResult.validationError ∧
        (setWinner ws name clock newId).2 = ws) ∧
      (ws.length ≤ 1 → (setWinner ws name clock newId).2.length ≤ 1) := by
  intro ws name clock newId
  by_cases hn : nameValid name = true
  · cases ws with
    | nil =>
        refine ⟨?_, ?_, ?_, ?_, ?_⟩
        · simp [setWinner, hn, checkWinnerExists]
        · intro _ _
          simp [setWinner, hn, checkWinnerExists]
        · intro w hw
          exact absurd hw (by simp [checkWinnerExists])
        · intro hfalse
          rw [hn] at hfalse
          exact absurd hfalse (by simp)
        · intro _
          simp [setWinner, hn, checkWinnerExists]
    | cons w0 rest =>
        refine ⟨?_, ?_, ?_, ?_, ?_⟩
        · simp [setWinner, hn, checkWinnerExists]
        · intro _ hcontra
          exact absurd hcontra (by simp)
        · intro w hw _
          have hw0 : w0.2 = w := by
            simpa [checkWinnerExists] using hw
          subst hw0
          simp [setWinner, hn, checkWinnerExists]
        · intro hfalse
          rw [hn] at hfalse
          exact absurd hfalse (by simp)
        · intro hlen
          simp [setWinner, hn, checkWinnerExists]
          simpa using hlen
  · rw [Bool.not_eq_true] at hn
    refine ⟨?_, ?_, ?_, ?_, ?_⟩
    · simp [setWinner, hn]
    · intro htrue
      rw [hn] at htrue
      exact absurd htrue (by simp)
    · intro w _ htrue
      rw [hn] at htrue
      exact absurd htrue (by simp)
    · intro _
      simp [setWinner, hn]
    · intro hlen
      simpa [setWinner, hn] using hlen

/-- A winner record already present in the registry. -/
def existingWinner : WinnerFields :=
  { name := "alice", createdAt := 0, updatedAt := 0 }

/-- C4 as stated fails: with a winner already set, a call with an *invalid*
name (101 characters) fails with `ValidationError`, not `AlreadyExists` (the
name is validated before the existence check), and the existing record is
not attached. -/
theorem setWinner_invalid_name_not_alreadyExists :
    (setWinner [("w1", existingWinner)] (String.mk (List.replicate 101 'a'))
        (fun _ => 0) "w2").1 = SetWinnerResult.validationError ∧
    (setWinner [("w1", existingWinner)] (String.mk (List.replicate 101 'a'))
        (fun _ => 0) "w2").1 ≠ SetWinnerResult.alreadyExists existingWinner ∧
    (setWinner [("w1", existingWinner)] (String.mk (List.replicate 101 'a'))
        (fun _ => 0) "w2").2 = [("w1", existingWinner)] := by
  refine ⟨by decide, by decide, by decide⟩

theorem setWinner_at_most_one_witness :
    nameValid "bob" = true ∧
    (setWinner [] "bob" (fun _ => 5) "w1").1
      = SetWinnerResult.created "w1"
          { name := jsTrim "bob", createdAt := 5, updatedAt := 5 } :=
  ⟨by decide,
    by
      have h := ((setWinner_at_most_one [] "bob" (fun _ => 5) "w1").2.1
        (by decide) rfl)
      exact congrArg Prod.fst h⟩

/-! ## C5: Create -/

/-- The record `POST /contests` persists: two consecutive clock readings for
`createdAt` and `updatedAt`, status `new`, no `names` field. -/
def createdContestData (eventId : String) (q : ℚ) (clock : ℕ → ℤ) : ContestData :=
  { eventId := JsValue.str eventId, costPerSquare := JsValue.num q,
    createdAt := JsValue.date (clock 0), updatedAt := JsValue.date (clock 1),
    status := JsValue.str "new", names := JsValue.undef }

theorem dropWhile_eq_self_of_all {α : Type} (p : α → Bool) :
    ∀ (l : List α), (∀ c ∈ l, p c = false) → l.dropWhile p = l
  | [], _ => rfl
  | c :: t, h => by
      rw [List.dropWhile_cons, h c (by simp)]
      simp

theorem trimChars_eq_self (cs : List Char) (h : ∀ c ∈ cs, c.isWhitespace = false) :
    trimChars cs = cs := by
  unfold trimChars
  rw [dropWhile_eq_self_of_all _ cs h,
    dropWhile_eq_self_of_all _ cs.reverse (fun c hc => h c (List.mem_reverse.mp hc)),
    List.reverse_reverse]

theorem eventIdChar_props (c : Char) (h : eventIdChar c = true) :
    c.isWhitespace = false ∧ (c == '<') = false ∧ (c == '>') = false := by
  refine ⟨?_, ?_, ?_⟩
  · by_contra hw
    rw [Bool.not_eq_false] at hw
    have hd : c = ' ' ∨ c = '\t' ∨ c = '\r' ∨ c = '\n' := by
      simpa [Char.isWhitespace, or_assoc] using hw
    rcases hd with rfl | rfl | rfl | rfl <;> exact absurd h (by decide)
  · by_contra hb
    rw [Bool.not_eq_false, beq_iff_eq] at hb
    subst hb
    exact absurd h (by decide)
  · by_contra hb
    rw [Bool.not_eq_false, beq_iff_eq] at hb
    subst hb
    exact absurd h (by decide)

/-- Sanitization does not change a pattern-valid eventId (its characters are
never whitespace, `<` or `>`). -/
theorem sanitizeString_of_eventIdChars (s : String)
    (h : s.data.all eventIdChar = true) : sanitizeString s = s := by
  rw [sanitizeString]
  have hall : ∀ c ∈ s.data, eventIdChar c = true := List.all_eq_true.mp h
  rw [trimChars_eq_self _ (fun c hc => (eventIdChar_props c (hall c hc)).1)]
  have hfil : s.data.filter (fun c => !(c == '<' || c == '>')) = s.data := by
    apply List.filter_eq_self.mpr
    intro c hc
    have hp := eventIdChar_props c (hall c hc)
    simp [hp.2.1, hp.2.2]
  rw [hfil]

/-- C5 (amended): for every valid input pair, `Create` persists and returns
a contest with status `"new"`, no `names` field, the store-assigned id, and
`createdAt` / `updatedAt` set to two consecutive clock readings taken at
creation — equal whenever those two readings coincide. -/
theorem createContest_creates_new_contest :
    ∀ (store : ContestStore) (eventId : String) (q : ℚ) (clock : ℕ → ℤ)
      (newId : String),
      eventIdValid eventId = true → costPerSquareValid q = true →
      createContest store (JsValue.str eventId) (JsValue.num q) clock newId
        = (CreateResult.created newId (createdContestData eventId q clock),
           store ++ [(newId, createdContestData eventId q clock)]) ∧
      (createdContestData eventId q clock).status = JsValue.str "new" ∧
      (createdContestData eventId q clock).names = JsValue.undef ∧
      (createdContestData eventId q clock).createdAt = JsValue.date (clock 0) ∧
      (createdContestData eventId q clock).updatedAt = JsValue.date (clock 1) ∧
      (clock 0 = clock 1 →
        (createdContestData eventId q clock).createdAt
          = (createdContestData eventId q clock).updatedAt) := by
  intro store eventId q clock newId hev hcost
  have hallev : eventId.data.all eventIdChar = true := by
    have h' := hev
    unfold eventIdValid at h'
    rw [Bool.and_eq_true, Bool.and_eq_true] at h'
    exact h'.2
  have hsan : sanitizeInput (JsValue.str eventId) = JsValue.str eventId := by
    simp [sanitizeInput, sanitizeString_of_eventIdChars eventId hallev]
  have hbody : processCreateBody (JsValue.str eventId) (JsValue.num q)
      = some (eventId, q) := by
    rw [processCreateBody, hsan]
    simp [sanitizeInput, hev, hcost]
  refine ⟨?_, rfl, rfl, rfl, rfl, fun h => by simp [createdContestData, h]⟩
  simp [createContest, hbody, createdContestData]

/-- C5 as stated fails: `createdAt` and `updatedAt` come from two separate
`new Date()` calls, so under a clock that ticks between the two readings the
created record has `createdAt ≠ updatedAt`. -/
theorem createContest_two_clock_reads :
    (createContest [] (JsValue.str "evt1") (JsValue.num 10)
        (fun k => (k : ℤ)) "c1").1
      = CreateResult.created "c1"
          { eventId := JsValue.str "evt1", costPerSquare := JsValue.num 10,
            names := JsValue.undef, status := JsValue.str "new",
            createdAt := JsValue.date 0, updatedAt := JsValue.date 1 } ∧
    JsValue.date (0 : ℤ) ≠ JsValue.date (1 : ℤ) := by
  refine ⟨by decide, by decide⟩

theorem createContest_creates_new_contest_witness :
    eventIdValid "evt1" = true ∧ costPerSquareValid 10 = true ∧
    createContest [] (JsValue.str "evt1") (JsValue.num 10) (fun _ => 7) "c1"
      = (CreateResult.created "c1" (createdContestData "evt1" 10 (fun _ => 7)),
         [("c1", createdContestData "evt1" 10 (fun _ => 7))]) ∧
    (createdContestData "evt1" 10 (fun _ => 7)).createdAt
      = (createdContestData "evt1" 10 (fun _ => 7)).updatedAt := by
  have h := createContest_creates_new_contest [] "evt1" 10 (fun _ => 7) "c1"
    (by decide) (by decide)
  exact ⟨by decide, by decide, by simpa using h.1, h.2.2.2.2.2 rfl⟩

/-! ## C6: the List endpoint -/

/-- C6: the service's own root endpoint advertises `getAll: GET /contests`,
but the contests router registers no route matching `GET` on the bare
`/contests` path, so such a request falls through to the global 404
handler. -/
theorem getContests_route_missing :
    dispatchContests HttpMethod.get [] = DispatchOutcome.notFoundFallback ∧
    contestsRoutes.filter (fun r => routeMatches r HttpMethod.get []) = [] ∧
    ("getAll", "GET /contests") ∈ advertisedContestEndpoints := by
  refine ⟨by decide, by decide, by decide⟩

/-! ## C8: GetWinner -/

/-- C8 (amended): an empty registry yields the explicit "no winner yet"
success result (not an error), and an existing winner is returned with its
stored fields (`name`, `createdAt`, `updatedAt`) but **without** the
store-assigned id: the handler reads `winner.id` from the document data,
which has no such field, so the `id` property is `undefined` and is dropped
from the JSON response. -/
theorem getWinner_no_error_and_no_id :
    ∀ (ws : WinnerStore),
      (ws = [] → getWinner ws = GetWinnerResult.noWinner) ∧
      (∀ id w rest, ws = (id, w) :: rest →
        getWinner ws
          = GetWinnerResult.winner
              [("name", JsValue.str w.name), ("createdAt", JsValue.date w.createdAt),
               ("updatedAt", JsValue.date w.updatedAt)] ∧
        (winnerResponseData w).lookup "id" = none) := by
  intro ws
  constructor
  · rintro rfl
    rfl
  · rintro id w rest rfl
    exact ⟨rfl, rfl⟩

/-- C8 as stated fails: the winner response does not include the
store-assigned document id (here `"winner-doc-1"`); the `data` object has
only the stored fields. -/
theorem getWinner_missing_id :
    getWinner [("winner-doc-1", existingWinner)]
      = GetWinnerResult.winner
          [("name", JsValue.str "alice"), ("createdAt", JsValue.date 0),
           ("updatedAt", JsValue.date 0)] ∧
    (winnerResponseData existingWinner).lookup "id" = none ∧
    (winnerResponseData existingWinner).lookup "name"
      = some (JsValue.str "alice") := by
  refine ⟨by decide, by decide, by decide⟩

theorem getWinner_no_error_and_no_id_witness :
    getWinner [] = GetWinnerResult.noWinner ∧
    getWinner [("w1", existingWinner)]
      = GetWinnerResult.winner
          [("name", JsValue.str "alice"), ("createdAt", JsValue.date 0),
           ("updatedAt", JsValue.date 0)] :=
  ⟨(getWinner_no_error_and_no_id []).1 rfl,
   ((getWinner_no_error_and_no_id [("w1", existingWinner)]).2 "w1" existingWinner
      [] rfl).1⟩

/-! ## C9: behaviour when the store is not configured -/

/-- C9 (amended): the exported `db` is never null — the mock object is
substituted — so the handlers' `ServiceUnavailable` branches are
unreachable.  Under the mock, `Get`, `UpdateNames` (with a valid body) and
`Start` report **NotFound** (404) for every id, while `Create` (valid body),
`SetWinner` (valid name) and `GetWinner` throw `TypeError`s on the mock's
missing collection methods, mapped to 503 `DATABASE_ERROR`. -/
theorem unconfigured_store_not_serviceUnavailable :
    ∀ (cs : ContestStore) (ws : WinnerStore) (id name : String) (input : JsValue)
      (v : JsValue) (draws : List ℕ) (now : ℤ) (clock : ℕ → ℤ) (newId : String)
      (ev cost : JsValue) (p : String × ℚ),
      firebaseDb false cs ws = some DbHandle.mock ∧
      getContestApi (firebaseDb false cs ws) id
        = ApiOutcome.result GetResult.notFound ∧
      (processNamesInput input = some v →
        (updateNamesApi (firebaseDb false cs ws) id input now).1
          = ApiOutcome.result UpdateResult.notFound) ∧
      (startContestApi (firebaseDb false cs ws) id draws now).1
        = ApiOutcome.result StartResult.notFound ∧
      (processCreateBody ev cost = some p →
        (createContestApi (firebaseDb false cs ws) ev cost clock newId).1
          = ApiOutcome.typeErrorDb) ∧
      (nameValid name = true →
        (setWinnerApi (firebaseDb false cs ws) name clock newId).1
          = ApiOutcome.typeErrorDb) ∧
      getWinnerApi (firebaseDb false cs ws) = ApiOutcome.typeErrorDb ∧
      (ApiOutcome.result GetResult.notFound).statusCode GetResult.statusCode
        = 404 := by
  intro cs ws id name input v draws now clock newId ev cost p
  refine ⟨rfl, rfl, ?_, rfl, ?_, ?_, rfl, rfl⟩
  · intro hv
    simp [updateNamesApi, firebaseDb, updateNames, hv, lookupDoc]
  · intro hp
    simp [createContestApi, firebaseDb, hp]
  · intro hn
    simp [setWinnerApi, firebaseDb, hn]

/-- C9 as stated fails: with the store unconfigured, `GET /contests/:id`
answers 404 NotFound (via the mock's `exists: false`), not 503
ServiceUnavailable. -/
theorem unconfigured_get_returns_notFound :
    firebaseDb false [] [] = some DbHandle.mock ∧
    getContestApi (firebaseDb false [] []) "abc123"
      = ApiOutcome.result GetResult.notFound ∧
    (getContestApi (firebaseDb false [] []) "abc123").statusCode
        GetResult.statusCode = 404 ∧
    (getContestApi (firebaseDb false [] []) "abc123").statusCode
        GetResult.statusCode ≠ 503 := by
  refine ⟨by decide, by decide, by decide, by decide⟩

theorem unconfigured_store_not_serviceUnavailable_witness :
    processNamesInput (JsValue.arr [JsValue.str "bob"])
        = some (JsValue.arr [JsValue.str "bob"]) ∧
    (updateNamesApi (firebaseDb false [] []) "c1"
        (JsValue.arr [JsValue.str "bob"]) 0).1
      = ApiOutcome.result UpdateResult.notFound ∧
    nameValid "bob" = true ∧
    (setWinnerApi (firebaseDb false [] []) "bob" (fun _ => 0) "w1").1
      = ApiOutcome.typeErrorDb := by
  have h := unconfigured_store_not_serviceUnavailable [] [] "c1" "bob"
    (JsValue.arr [JsValue.str "bob"]) (JsValue.arr [JsValue.str "bob"]) [] 0
    (fun _ => 0) "w1" JsValue.undef JsValue.undef ("", 1)
  exact ⟨by decide, h.2.2.1 (by decide), by decide, h.2.2.2.2.2.1 (by decide)⟩

/-! ## C10: contest-id validation -/

/-- C10: an empty or over-long (>200 chars) `:id` parameter is rejected by
`validateContestId` with a 400 validation error before the handler runs: the
result is the same for every `db` state, the store is not touched, and no
route answers NotFound for such an id. -/
theorem invalid_contest_id_rejected_before_store :
    ∀ (db : Option DbHandle) (id : String) (input : JsValue) (draws : List ℕ)
      (now : ℤ),
      id = "" ∨ 200 < id.length →
      getContestRoute db id = Routed.idValidationError ∧
      updateNamesRoute db id input now = (Routed.idValidationError, db) ∧
      startContestRoute db id draws now = (Routed.idValidationError, db) ∧
      (∀ r, getContestRoute db id ≠ Routed.through r) := by
  intro db id input draws now h
  have hval : contestIdValid id = false := by
    rcases h with rfl | hlen
    · rfl
    · unfold contestIdValid
      have hle : ¬(id.length ≤ 200) := by omega
      simp [hle]
  have hval' : ¬(contestIdValid id = true) := by simp [hval]
  refine ⟨?_, ?_, ?_, ?_⟩
  · simp [getContestRoute, hval']
  · simp [updateNamesRoute, hval']
  · simp [startContestRoute, hval']
  · intro r
    simp [getContestRoute, hval']

theorem invalid_contest_id_rejected_before_store_witness :
    (("" : String) = "" ∨ 200 < ("" : String).length) ∧
    getContestRoute (firebaseDb true [] []) "" = Routed.idValidationError ∧
    updateNamesRoute (firebaseDb true [] []) "" JsValue.undef 0
      = (Routed.idValidationError, firebaseDb true [] []) :=
  ⟨Or.inl rfl,
   (invalid_contest_id_rejected_before_store (firebaseDb true [] []) ""
      JsValue.undef [] 0 (Or.inl rfl)).1,
   (invalid_contest_id_rejected_before_store (firebaseDb true [] []) ""
      JsValue.undef [] 0 (Or.inl rfl)).2.1⟩
